import Mathlib

/-!
Shallow embedding of `src/file.py` (PicoDuckySetup), a provisioning script
for a Raspberry Pi Pico board, together with proofs about the claims of
the specification.

The embedding has three layers, all translated directly from the source:

* a storage model of the step ledger (`load_state`, `save_state`,
  `markStep`), from lines 34-42 and the `append`/`save_state` pairs in the
  phase methods;
* a discrete-time model of the polling loop `wait_for_drive`
  (lines 67-76), with one time unit per `time.sleep(1)` poll and the
  settle delay of two units for `time.sleep(2)`;
* an effect-trace model of the phases `setup_repo`, `flash_device`,
  `copy_files`, `cleanup` and the orchestrator `run` (lines 92-175),
  where external outcomes (drive appearance, download success, local
  file existence, repo folder existence, source-directory contents) are
  oracles in an environment record, and every externally visible side
  effect (clone, download, copy, remove, ledger save) is recorded in a
  trace.  Each phase records an `enter` marker when invoked, so that
  "phase X was invoked" is expressible as trace membership.
-/

namespace PicoDucky

/-! ### Configuration constants (lines 12-31 of the source) -/

def bootloaderPath : String := "/Volumes/RPI-RP2"

def circuitpyPath : String := "/Volumes/CIRCUITPY"

def nukeName : String := "flash_nuke.uf2"

def cpName : String := "adafruit-circuitpython-raspberry_pi_pico-en_US-8.0.0.uf2"

def repoFolder : String := "copy_to_py"

/-- The three step identifiers the ledger can contain. -/
def stepIds : List String := ["repo_setup", "device_flashed", "files_copied"]

/-! ### Step ledger storage (lines 34-42)

`setup_state.json` holds `{"completed_steps": [...]}`.  We model the file
as `Option (List String)`: `none` when the file does not exist.  -/

/-- `load_state` (lines 34-38): read the completed-steps list from the
file if it exists, else the empty ledger. -/
def load_state : Option (List String) → List String
  | some l => l
  | none => []

/-- `save_state` (lines 40-42): write the completed-steps list to the file. -/
def save_state (mem : List String) : Option (List String) := some mem

/-! ### Discrete-time model of `wait_for_drive` (lines 67-76)

Time is in seconds.  Each loop iteration happens at a time `t`; if the
drive is available (`os.path.exists and os.path.ismount`) the function
sleeps the settle delay of 2 seconds and returns `True` at `t + 2`;
otherwise it sleeps 1 second and retries at `t + 1`.  The loop guard is
`time.time() - start_time < timeout`, so with integer seconds the
iteration at elapsed time `k` runs iff `k < timeout`; we recurse on the
remaining iterations `timeout - k`.  A raise is modelled as
`Except.error t` carrying the time of the raise. -/

def settleDelay : Nat := 2

def pollInterval : Nat := 1

/-- The polling loop of `wait_for_drive`: `t` is the current time,
the second argument the number of polls remaining before the deadline. -/
def wait_loop (avail : Nat → Bool) : Nat → Nat → Except Nat (Nat × Bool)
  | t, 0 => .error t
  | t, rem + 1 =>
      if avail t then .ok (t + settleDelay, true)
      else wait_loop avail (t + pollInterval) rem

/-- `wait_for_drive` (lines 67-76): poll `avail` from time `t0` for
`timeout` seconds; on success return `True` after the settle delay, on
deadline expiry raise (error value = time of the raise). -/
def wait_for_drive (avail : Nat → Bool) (t0 timeout : Nat) :
    Except Nat (Nat × Bool) :=
  wait_loop avail t0 timeout

/-! ### Destination-volume filesystem model for `copy_files`

The CIRCUITPY volume root is a flat association list of named entries;
an entry is a file (with abstract content) or a directory whose own
contents are a flat list of named abstract contents.  This is enough to
express full-replace semantics and stale entries. -/

/-- Contents of a directory entry: names paired with abstract content. -/
abbrev DirContents := List (String × Nat)

/-- A filesystem node: a file with abstract content, or a directory. -/
inductive Node where
  | file (c : Nat)
  | dir (es : DirContents)
  deriving DecidableEq

/-- The destination volume root: an association list of named nodes. -/
abbrev Dest := List (String × Node)

/-- Look up an entry by name on the destination volume. -/
def lookupD (d : Dest) (n : String) : Option Node :=
  (d.find? (fun p => p.1 = n)).map (·.2)

/-- Create or overwrite the entry named `n`. -/
def setD (d : Dest) (n : String) (v : Node) : Dest :=
  match d with
  | [] => [(n, v)]
  | (m, w) :: rest => if m = n then (n, v) :: rest else (m, w) :: setD rest n v

/-- Create or overwrite a name inside a directory's contents. -/
def setDir (es : DirContents) (n : String) (c : Nat) : DirContents :=
  match es with
  | [] => [(n, c)]
  | (m, w) :: rest => if m = n then (n, c) :: rest else (m, w) :: setDir rest n c

/-- An entry of the cloned repository folder, as seen by
`source_folder.iterdir()` (line 137). -/
structure SrcEntry where
  name : String
  node : Node
  deriving DecidableEq

/-! ### Effect-trace model of the phases (lines 78-175)

The environment abstracts the outside world per external interaction:
whether a `wait_for_drive` call on each volume succeeds within its
timeout (the polling itself is modelled in detail above), whether a
local artifact file exists, whether `curl` / `git clone` succeed, what
`os.path.exists` / `os.path.ismount` report for the CIRCUITPY path at
the start of `run`, and the entries of the cloned repo folder. -/

structure Env where
  /-- `os.path.exists("/Volumes/CIRCUITPY")` at line 161. -/
  circuitpyExists : Bool
  /-- `os.path.ismount("/Volumes/CIRCUITPY")` at the start of `run`.
  The source never reads this at line 161; it is part of the observable
  world the specification's claims quantify over. -/
  circuitpyIsmount : Bool
  /-- Whether a `wait_for_drive` call on the bootloader volume returns
  within the timeout (otherwise it raises). -/
  bootWaitOk : Bool
  /-- Whether a `wait_for_drive` call on the CIRCUITPY volume returns
  within the timeout (otherwise it raises). -/
  circuitpyWaitOk : Bool
  /-- `os.path.exists(repo_folder)` at line 99. -/
  repoFolderExists : Bool
  /-- Whether `git clone` exits with status 0 (line 101). -/
  cloneOk : Bool
  /-- `os.path.exists(filename)` for a local artifact (lines 79, 155). -/
  localExists : String → Bool
  /-- Whether `curl` exits with status 0 for a given artifact (line 81). -/
  downloadOk : String → Bool
  /-- The entries of the cloned repo folder (line 137). -/
  srcEntries : List SrcEntry

/-- The mutable state a run acts on: the in-memory
`self.state["completed_steps"]` list, the persisted `setup_state.json`
file, and the contents of the destination (CIRCUITPY) volume. -/
structure St where
  mem : List String
  file : Option (List String)
  dest : Dest
  deriving DecidableEq

/-- Externally visible side effects, in the order they are performed. -/
inductive Effect where
  /-- A phase method was invoked (procedure entry, not an OS effect). -/
  | enter (phase : String)
  /-- `git clone` was invoked (line 101). -/
  | clone
  /-- `curl` was invoked for an artifact (line 81). -/
  | download (name : String)
  /-- `shutil.copy2(src, dest_drive)` inside `copy_to_drive` (line 89). -/
  | copyToDrive (name : String) (drive : String)
  /-- `shutil.rmtree(dest)` on a stale directory entry (line 144). -/
  | rmtreeE (name : String)
  /-- `shutil.copytree(item, dest)` (line 145). -/
  | copyTreeE (name : String)
  /-- `shutil.copy2(item, dest)` for a file entry (line 147). -/
  | copyFileE (name : String)
  /-- `os.remove` of a cached artifact in `cleanup` (line 156). -/
  | removeLocal (name : String)
  /-- `save_state` wrote the given completed-steps list (line 41). -/
  | saveLedger (steps : List String)
  deriving DecidableEq

/-- The errors a phase can raise (all `RuntimeError` in the source,
distinguished here by their message / raise site). -/
inductive PErr where
  /-- "Timeout waiting for drive" (line 76). -/
  | driveTimeout
  /-- "Command failed" from `run_command` (line 65). -/
  | commandFailure
  /-- "Drive ... not available" in `copy_to_drive` (line 88). -/
  | driveNotAvailable
  /-- "Bootloader drive not found" in `flash_device` (line 117). -/
  | bootNotFound
  /-- "CircuitPy drive not found" in `copy_files` (line 134). -/
  | cpNotFound
  /-- `NotADirectoryError` from `shutil.rmtree` on a regular file
  (line 144): `dest.exists()` is true for a stale file, but `rmtree`
  only accepts directories. -/
  | notADirectory
  deriving DecidableEq

/-- The outcome of a phase (or of `run`): the error if one was raised
(`none` means normal return), the state at return/raise time, and the
trace of effects performed. -/
structure POut where
  err? : Option PErr
  st : St
  trace : List Effect
  deriving DecidableEq

/-- `self.state["completed_steps"].append(step)` followed by
`self.save_state()` (e.g. lines 103-104): returns the new state and the
save effect. -/
def markStep (s : St) (step : String) : St × Effect :=
  let mem' := s.mem ++ [step]
  ({ s with mem := mem', file := save_state mem' }, .saveLedger mem')

/-- Outcome of one `wait_for_drive` call in the phase model: returns
`True`, or raises the timeout error, according to the oracle. -/
def waitDrive (ok : Bool) : Except PErr Bool :=
  if ok then .ok true else .error .driveTimeout

/-- `download_file` (lines 78-83): download if the file is absent
locally, then compute a checksum (a pure read, no effect).  Returns the
effects performed and the error, if any. -/
def download_file (localExists dlOk : Bool) (name : String) :
    List Effect × Option PErr :=
  if localExists then ([], none)
  else if dlOk then ([.download name], none)
  else ([.download name], some .commandFailure)

/-- `copy_to_drive` (lines 85-90): wait for the drive, guard on the
returned value, copy, settle.  `waitOk` is the oracle for the inner
`wait_for_drive` call. -/
def copy_to_drive (waitOk : Bool) (name drive : String) :
    List Effect × Option PErr :=
  match waitDrive waitOk with
  | .error e => ([], some e)
  | .ok b =>
      if b = false then ([], some .driveNotAvailable)
      else ([.copyToDrive name drive], none)

/-- One iteration of the artifact loop in `flash_device`
(lines 114-121): wait for the bootloader drive, guard, download if
needed, copy onto the bootloader volume. -/
def flash_one (env : Env) (name : String) : List Effect × Option PErr :=
  match waitDrive env.bootWaitOk with
  | .error e => ([], some e)
  | .ok b =>
      if b = false then ([], some .bootNotFound)
      else
        match download_file (env.localExists name) (env.downloadOk name) name with
        | (t1, some e) => (t1, some e)
        | (t1, none) =>
            match copy_to_drive env.bootWaitOk name bootloaderPath with
            | (t2, some e) => (t1 ++ t2, some e)
            | (t2, none) => (t1 ++ t2, none)

/-- `setup_repo` (lines 92-104). -/
def setup_repo (env : Env) (s : St) : POut :=
  if "repo_setup" ∈ s.mem then ⟨none, s, [.enter "setup_repo"]⟩
  else if env.repoFolderExists then
    let p := markStep s "repo_setup"
    ⟨none, p.1, [.enter "setup_repo", p.2]⟩
  else if env.cloneOk then
    let p := markStep s "repo_setup"
    ⟨none, p.1, [.enter "setup_repo", .clone, p.2]⟩
  else ⟨some .commandFailure, s, [.enter "setup_repo", .clone]⟩

/-- `flash_device` (lines 106-124): the two configured artifacts are
processed in the dictionary's insertion order: `flash_nuke` then the
CircuitPython image. -/
def flash_device (env : Env) (s : St) : POut :=
  if "device_flashed" ∈ s.mem then ⟨none, s, [.enter "flash_device"]⟩
  else
    match flash_one env nukeName with
    | (t1, some e) => ⟨some e, s, .enter "flash_device" :: t1⟩
    | (t1, none) =>
        match flash_one env cpName with
        | (t2, some e) => ⟨some e, s, .enter "flash_device" :: (t1 ++ t2)⟩
        | (t2, none) =>
            let p := markStep s "device_flashed"
            ⟨none, p.1, .enter "flash_device" :: (t1 ++ t2 ++ [p.2])⟩

/-- Whether `shutil.rmtree(dest)` at line 144 raises on this entry: it
does exactly when the source entry is a directory (so the
`item.is_dir()` branch is taken), the destination entry of that name
exists (`dest.exists()`), and that destination entry is a regular
file — `rmtree` raises `NotADirectoryError` on a file. -/
def rmtreeRaises (dest : Dest) (e : SrcEntry) : Bool :=
  match e.node, lookupD dest e.name with
  | .dir _, some (.file _) => true
  | _, _ => false

/-- Copy one source entry onto the destination volume
(lines 141-147).  For a directory entry: if a destination entry of
that name exists, `shutil.rmtree` it — which raises
`NotADirectoryError` if that stale entry is a regular file, aborting
with the destination unchanged — then `copytree`.  For a file entry:
`shutil.copy2`, which overwrites a file destination but copies *into*
an existing directory of that name.  Returns the new destination, the
effects performed, and the error, if any. -/
def copyEntry (dest : Dest) (e : SrcEntry) : Dest × List Effect × Option PErr :=
  match e.node with
  | .dir es =>
      match lookupD dest e.name with
      | some (.file _) => (dest, [.rmtreeE e.name], some .notADirectory)
      | some (.dir _) =>
          (setD dest e.name (.dir es), [.rmtreeE e.name, .copyTreeE e.name], none)
      | none => (setD dest e.name (.dir es), [.copyTreeE e.name], none)
  | .file c =>
      match lookupD dest e.name with
      | some (.dir es) =>
          (setD dest e.name (.dir (setDir es e.name c)), [.copyFileE e.name], none)
      | _ => (setD dest e.name (.file c), [.copyFileE e.name], none)

/-- The `for item in source_folder.iterdir()` loop (lines 137-147),
with the `.DS_Store` skip of lines 138-139.  A raise inside the loop
aborts it: entries already copied stay on the volume, later entries
are not processed. -/
def copyAll (dest : Dest) : List SrcEntry → Dest × List Effect × Option PErr
  | [] => (dest, [], none)
  | e :: rest =>
      if e.name = ".DS_Store" then copyAll dest rest
      else
        match copyEntry dest e with
        | (d', tr, some err) => (d', tr, some err)
        | (d', tr, none) =>
            let q := copyAll d' rest
            (q.1, tr ++ q.2.1, q.2.2)

/-- `copy_files` (lines 126-150).  If the copy loop raises, the raise
propagates before the ledger append and save of lines 149-150: the
state keeps the partially copied destination but the ledger — memory
and file — is untouched. -/
def copy_files (env : Env) (s : St) : POut :=
  if "files_copied" ∈ s.mem then ⟨none, s, [.enter "copy_files"]⟩
  else
    match waitDrive env.circuitpyWaitOk with
    | .error e => ⟨some e, s, [.enter "copy_files"]⟩
    | .ok b =>
        if b = false then ⟨some .cpNotFound, s, [.enter "copy_files"]⟩
        else
          match copyAll s.dest env.srcEntries with
          | (d', tr, some err) =>
              ⟨some err, { s with dest := d' }, .enter "copy_files" :: tr⟩
          | (d', tr, none) =>
              let p := markStep { s with dest := d' } "files_copied"
              ⟨none, p.1, .enter "copy_files" :: (tr ++ [p.2])⟩

/-- `cleanup` (lines 152-156): remove each cached artifact that exists
locally; the ledger is not touched. -/
def cleanup (env : Env) (s : St) : POut :=
  ⟨none, s,
    .enter "cleanup" ::
      ((if env.localExists nukeName then [.removeLocal nukeName] else []) ++
        (if env.localExists cpName then [.removeLocal cpName] else []))⟩

/-- Sequencing of phases inside `run`: if the first raised, the raise
propagates (lines 173-175 re-raise); otherwise continue on the
resulting state, concatenating traces. -/
def andThen (p : POut) (f : St → POut) : POut :=
  match p.err? with
  | some _ => p
  | none =>
      let q := f p.st
      ⟨q.err?, q.st, p.trace ++ q.trace⟩

/-- `run` (lines 158-175): branch on `os.path.exists` of the CIRCUITPY
path; the skip branch runs `setup_repo` then `copy_files`, the full
branch additionally runs `flash_device` in between; `cleanup` runs
after a successful pass. -/
def run (env : Env) (s : St) : POut :=
  if env.circuitpyExists then
    andThen (andThen (setup_repo env s) (copy_files env)) (cleanup env)
  else
    andThen
      (andThen (andThen (setup_repo env s) (flash_device env)) (copy_files env))
      (cleanup env)

/-! ### Top-level `main` (lines 177-185) -/

/-- How the `setup.run()` call inside `main` terminates. -/
inductive RunOutcome where
  | success
  | permissionError
  | otherError (msg : String)
  deriving DecidableEq

/-- What `main` prints and the process exit status. -/
structure MainResult where
  printed : List String
  exitCode : Nat
  deriving DecidableEq

/-- The hint printed on `PermissionError` (line 182), with
`sys.executable` and the joined `sys.argv` abstracted. -/
def permissionHint (exe argv : String) : String :=
  "Permission denied. Try: sudo " ++ exe ++ " " ++ argv

/-- `main` (lines 177-185): `PermissionError` prints the sudo hint and
falls through (exit status 0); any other exception prints
`Error: ...` and exits with status 1; success exits with status 0. -/
def main (exe argv : String) : RunOutcome → MainResult
  | .success => ⟨[], 0⟩
  | .permissionError => ⟨[permissionHint exe argv], 0⟩
  | .otherError m => ⟨["Error: " ++ m], 1⟩

/-! ## Helper lemmas -/

/-- A successful `wait_loop` always returns the value `true`. -/
theorem wait_loop_ok_true (avail : Nat → Bool) :
    ∀ (rem t : Nat) (p : Nat × Bool), wait_loop avail t rem = .ok p → p.2 = true := by
  intro rem
  induction rem with
  | zero => intro t p h; simp [wait_loop] at h
  | succ rem ih =>
      intro t p h
      by_cases ha : avail t
      · simp [wait_loop, ha] at h
        simp [← h]
      · simp [wait_loop, ha] at h
        exact ih _ _ h

end PicoDucky

namespace PicoDucky

/-! ## Claims -/

/-- Claim C5: on a path that never becomes available, `wait_for_drive`
raises the drive-timeout error exactly when the deadline elapses
(time `t0 + timeout`): never before the deadline, and within one
polling interval after it; it raises rather than returning a failure
value. -/
theorem wait_for_drive_timeout_at_deadline (avail : Nat → Bool)
    (t0 timeout : Nat) (h : ∀ t, avail t = false) :
    wait_for_drive avail t0 timeout = .error (t0 + timeout) := by
  unfold wait_for_drive
  induction timeout generalizing t0 with
  | zero => simp [wait_loop]
  | succ rem ih =>
      rw [wait_loop, if_neg (by simp [h t0])]
      rw [ih (t0 + pollInterval)]
      congr 1
      simp [pollInterval]
      omega

/-- Witness for C5 at a concrete never-available path. -/
theorem wait_for_drive_timeout_at_deadline_wit :
    (∀ t, (fun _ : Nat => false) t = false) ∧
      wait_for_drive (fun _ => false) 0 3 = .error (0 + 3) :=
  ⟨fun _ => rfl,
    wait_for_drive_timeout_at_deadline (fun _ => false) 0 3 (fun _ => rfl)⟩

/-- Claim C6: if the drive first becomes available at time `t0 + k`
(within the deadline), `wait_for_drive` returns success only at
`t0 + k + settleDelay`: the settle delay elapses in addition, beyond
the moment of first detection. -/
theorem wait_for_drive_settles (avail : Nat → Bool) (t0 timeout k : Nat)
    (hk : k < timeout) (hdet : avail (t0 + k) = true)
    (hbefore : ∀ j, j < k → avail (t0 + j) = false) :
    wait_for_drive avail t0 timeout = .ok (t0 + k + settleDelay, true) := by
  unfold wait_for_drive
  induction k generalizing t0 timeout with
  | zero =>
      obtain ⟨rem, rfl⟩ : ∃ rem, timeout = rem + 1 := ⟨timeout - 1, by omega⟩
      rw [wait_loop, if_pos (by simpa using hdet)]
      simp
  | succ k ih =>
      obtain ⟨rem, rfl⟩ : ∃ rem, timeout = rem + 1 := ⟨timeout - 1, by omega⟩
      have h0 : avail t0 = false := by simpa using hbefore 0 (Nat.succ_pos k)
      rw [wait_loop, if_neg (by simp [h0])]
      have hres := ih (t0 + pollInterval) rem (by omega)
        (by simpa [pollInterval, Nat.add_assoc, Nat.add_comm, Nat.add_left_comm] using hdet)
        (fun j hj => by
          have := hbefore (j + 1) (by omega)
          simpa [pollInterval, Nat.add_assoc, Nat.add_comm, Nat.add_left_comm] using this)
      rw [hres]
      congr 2
      simp [pollInterval]
      omega

/-- Witness for C6: availability begins at time 2, detection at the
poll at time 2, success returned at time 4 = 2 + settle delay. -/
theorem wait_for_drive_settles_wit :
    (2 < 5 ∧ (fun t : Nat => decide (2 ≤ t)) (0 + 2) = true ∧
        (∀ j, j < 2 → (fun t : Nat => decide (2 ≤ t)) (0 + j) = false)) ∧
      wait_for_drive (fun t => decide (2 ≤ t)) 0 5 = .ok (0 + 2 + settleDelay, true) :=
  ⟨⟨by decide, by decide, by decide⟩,
    wait_for_drive_settles (fun t => decide (2 ≤ t)) 0 5 2
      (by decide) (by decide) (by decide)⟩

/-- Claim C7: ledger persistence round-trips: appending a step and
saving (as the phase methods do via `markStep`), then reloading the
ledger from storage with `load_state`, yields a ledger in which that
step is reported completed. -/
theorem ledger_roundtrip (s : St) (step : String) :
    step ∈ load_state ((markStep s step).1.file) := by
  simp [markStep, save_state, load_state]

/-- Claim C1: a phase whose step identifier is already in the ledger is
a pure skip: re-invoking it performs no clone, download, copy or save
effect (the trace holds only the procedure-entry marker) and leaves the
state — in particular the ledger — unchanged. -/
theorem completed_phase_skips (env : Env) (s : St) :
    ("repo_setup" ∈ s.mem →
        setup_repo env s = ⟨none, s, [.enter "setup_repo"]⟩) ∧
      ("device_flashed" ∈ s.mem →
        flash_device env s = ⟨none, s, [.enter "flash_device"]⟩) ∧
      ("files_copied" ∈ s.mem →
        copy_files env s = ⟨none, s, [.enter "copy_files"]⟩) :=
  ⟨fun h => by simp [setup_repo, h],
    fun h => by simp [flash_device, h],
    fun h => by simp [copy_files, h]⟩

/-- Claim C8: no exception reaching the top level is silently
swallowed (every non-success outcome prints something); a permission
failure prints the distinct, actionable sudo hint (which literally
suggests `sudo`, and differs from the generic error message); every
other uncaught failure prints `Error: ...` and exits with a non-zero
status. -/
theorem main_surfaces_errors (exe argv m : String) (o : RunOutcome) :
    (o ≠ .success → (main exe argv o).printed ≠ []) ∧
      ((main exe argv .permissionError).printed = [permissionHint exe argv] ∧
        (∃ pre suf, permissionHint exe argv = pre ++ "sudo" ++ suf) ∧
        permissionHint exe argv ≠ "Error: " ++ m) ∧
      ((main exe argv (.otherError m)).exitCode = 1 ∧
        (main exe argv (.otherError m)).printed = ["Error: " ++ m]) := by
  refine ⟨?_, ⟨rfl, ?_, ?_⟩, rfl, rfl⟩
  · intro ho
    cases o with
    | success => exact absurd rfl ho
    | permissionError => simp [main]
    | otherError m => simp [main]
  · refine ⟨"Permission denied. Try: ", " " ++ exe ++ " " ++ argv, ?_⟩
    simp only [permissionHint]
    simp only [String.append_assoc]
    rw [← String.append_assoc "Permission denied. Try: " "sudo"]
    rw [show ("Permission denied. Try: " ++ "sudo" : String) =
      "Permission denied. Try: sudo" from rfl]
    rw [← String.append_assoc "Permission denied. Try: sudo" " "]
    rw [show ("Permission denied. Try: sudo" ++ " " : String) =
      "Permission denied. Try: sudo " from rfl]
  · intro h
    have hd : (permissionHint exe argv).data.head? = ("Error: " ++ m).data.head? :=
      congrArg (fun t => t.data.head?) h
    have h1 : (permissionHint exe argv).data.head? = some 'P' := by
      show (("Permission denied. Try: sudo " ++ exe ++ " " ++ argv)).data.head? = some 'P'
      rw [String.data_append, String.data_append, String.data_append]
      rfl
    have h2 : ("Error: " ++ m).data.head? = some 'E' := by
      rw [String.data_append]; rfl
    rw [h1, h2] at hd
    exact absurd hd (by decide)

/-- Witness for C8 at a concrete permission failure. -/
theorem main_surfaces_errors_wit :
    RunOutcome.permissionError ≠ RunOutcome.success ∧
      (main "python3" "file.py" RunOutcome.permissionError).printed ≠ [] :=
  ⟨by decide,
    (main_surfaces_errors "python3" "file.py" "boom" .permissionError).1 (by decide)⟩

/-- A concrete environment and state used by several witnesses: the
destination volume is absent at start, all drives appear when waited
on, artifacts already exist locally, the repo folder exists. -/
def envW : Env :=
  ⟨false, false, true, true, true, true, fun _ => true, fun _ => true,
    [⟨"payload", .dir [("code.py", 1)]⟩]⟩

/-- A fresh state: empty ledger, no state file, empty destination. -/
def stW : St := ⟨[], none, []⟩

/-- A state whose ledger holds all three steps. -/
def stDone : St := ⟨stepIds, some stepIds, []⟩

/-- `flash_one` only ever fails with the drive-timeout or the
command-failure error. -/
theorem flash_one_err_cases (env : Env) (n : String) :
    (flash_one env n).2 = none ∨ (flash_one env n).2 = some .driveTimeout ∨
      (flash_one env n).2 = some .commandFailure := by
  unfold flash_one download_file copy_to_drive
  by_cases hb : env.bootWaitOk
  · by_cases hl : env.localExists n
    · simp [hb, hl, waitDrive]
    · by_cases hd : env.downloadOk n <;> simp [hb, hl, hd, waitDrive]
  · simp [hb, waitDrive]

/-- `flash_device` only ever fails with the drive-timeout or the
command-failure error. -/
theorem flash_device_err_cases (env : Env) (s : St) :
    (flash_device env s).err? = none ∨
      (flash_device env s).err? = some .driveTimeout ∨
      (flash_device env s).err? = some .commandFailure := by
  unfold flash_device
  by_cases h : "device_flashed" ∈ s.mem
  · simp [h]
  · simp only [h, if_neg, if_false]
    rcases h1 : flash_one env nukeName with ⟨t1, o1⟩
    have e1 := flash_one_err_cases env nukeName
    rw [h1] at e1
    cases o1 with
    | some e =>
        rcases e1 with e1 | e1 | e1 <;> simp_all
    | none =>
        rcases h2 : flash_one env cpName with ⟨t2, o2⟩
        have e2 := flash_one_err_cases env cpName
        rw [h2] at e2
        cases o2 with
        | some e => rcases e2 with e2 | e2 | e2 <;> simp_all
        | none => simp_all

/-- `copyEntry` either succeeds or raises `NotADirectoryError`. -/
theorem copyEntry_err_cases (d : Dest) (e : SrcEntry) :
    (copyEntry d e).2.2 = none ∨ (copyEntry d e).2.2 = some PErr.notADirectory := by
  rcases e with ⟨name, node⟩
  cases node with
  | file c =>
      simp only [copyEntry]
      split <;> simp
  | dir es =>
      simp only [copyEntry]
      split <;> simp

/-- The copy loop either succeeds or raises `NotADirectoryError`. -/
theorem copyAll_err_cases (es : List SrcEntry) :
    ∀ d : Dest, (copyAll d es).2.2 = none ∨
      (copyAll d es).2.2 = some PErr.notADirectory := by
  induction es with
  | nil => intro d; simp [copyAll]
  | cons a rest ih =>
      intro d
      by_cases hds : a.name = ".DS_Store"
      · simpa only [copyAll, if_pos hds] using ih d
      · simp only [copyAll, if_neg hds]
        rcases hc : copyEntry d a with ⟨d', tr, o⟩
        have he := copyEntry_err_cases d a
        rw [hc] at he
        cases o with
        | some err =>
            rcases he with he | he
            · simp at he
            · simp at he
              simp [he]
        | none => simpa using ih d'

/-- Claim C9: whenever `wait_for_drive` returns normally it returns
`True`; consequently the `if not self.wait_for_drive(...)` error
branches in `copy_to_drive`, `flash_device` and `copy_files`
("Drive not available", "Bootloader drive not found",
"CircuitPy drive not found") can never be taken. -/
theorem wait_true_guards_dead :
    (∀ (avail : Nat → Bool) (t0 timeout : Nat) (p : Nat × Bool),
        wait_for_drive avail t0 timeout = .ok p → p.2 = true) ∧
      (∀ (ok : Bool) (n d : String),
        (copy_to_drive ok n d).2 ≠ some .driveNotAvailable) ∧
      (∀ (env : Env) (s : St), (flash_device env s).err? ≠ some .bootNotFound) ∧
      (∀ (env : Env) (s : St), (copy_files env s).err? ≠ some .cpNotFound) := by
  refine ⟨?_, ?_, ?_, ?_⟩
  · intro avail t0 timeout p h
    exact wait_loop_ok_true avail timeout t0 p h
  · intro ok n d
    by_cases h : ok <;> simp [copy_to_drive, waitDrive, h]
  · intro env s
    rcases flash_device_err_cases env s with h | h | h <;> simp [h]
  · intro env s
    unfold copy_files
    by_cases h : "files_copied" ∈ s.mem
    · simp [h]
    · by_cases hw : env.circuitpyWaitOk
      · simp only [if_neg h, waitDrive, if_pos hw]
        rcases hc : copyAll s.dest env.srcEntries with ⟨d', tr, o⟩
        have he := copyAll_err_cases env.srcEntries s.dest
        rw [hc] at he
        cases o with
        | some err =>
            rcases he with he | he
            · simp at he
            · simp at he
              simp [he]
        | none => simp
      · simp [h, hw, waitDrive]

/-- Witness for C9: a concrete successful wait whose returned value is
`true`. -/
theorem wait_true_guards_dead_wit :
    wait_for_drive (fun _ => true) 0 3 = .ok (0 + settleDelay, true) ∧
      ((0 + settleDelay, true) : Nat × Bool).2 = true :=
  ⟨rfl, wait_true_guards_dead.1 (fun _ => true) 0 3 _ rfl⟩

/-- The trace of `copyEntry` contains no procedure-entry marker. -/
theorem copyEntry_no_enter (d : Dest) (e : SrcEntry) (ph : String) :
    Effect.enter ph ∉ (copyEntry d e).2.1 := by
  rcases e with ⟨name, node⟩
  cases node with
  | file c =>
      simp only [copyEntry]
      split <;> simp
  | dir es =>
      simp only [copyEntry]
      split <;> simp

/-- The trace of `copyAll` contains no procedure-entry marker. -/
theorem copyAll_no_enter (ph : String) :
    ∀ (es : List SrcEntry) (d : Dest), Effect.enter ph ∉ (copyAll d es).2.1 := by
  intro es
  induction es with
  | nil => intro d; simp [copyAll]
  | cons e rest ih =>
      intro d
      by_cases hds : e.name = ".DS_Store"
      · simpa [copyAll, hds] using ih d
      · simp only [copyAll, if_neg hds]
        rcases hc : copyEntry d e with ⟨d', tr, o⟩
        have hno := copyEntry_no_enter d e ph
        rw [hc] at hno
        cases o with
        | some err => simpa using hno
        | none =>
            simp only [List.mem_append]
            push_neg
            exact ⟨by simpa using hno, ih d'⟩

/-- The trace of `setup_repo` starts with its own entry marker. -/
theorem setup_repo_trace_head (env : Env) (s : St) :
    ∃ t, (setup_repo env s).trace = Effect.enter "setup_repo" :: t := by
  unfold setup_repo
  split
  · exact ⟨_, rfl⟩
  · split
    · exact ⟨_, rfl⟩
    · split <;> exact ⟨_, rfl⟩

/-- The trace of `flash_device` starts with its own entry marker. -/
theorem flash_device_trace_head (env : Env) (s : St) :
    ∃ t, (flash_device env s).trace = Effect.enter "flash_device" :: t := by
  unfold flash_device
  split
  · exact ⟨_, rfl⟩
  · split
    · exact ⟨_, rfl⟩
    · split <;> exact ⟨_, rfl⟩

/-- The trace of `copy_files` starts with its own entry marker. -/
theorem copy_files_trace_head (env : Env) (s : St) :
    ∃ t, (copy_files env s).trace = Effect.enter "copy_files" :: t := by
  unfold copy_files
  split
  · exact ⟨_, rfl⟩
  · split
    · exact ⟨_, rfl⟩
    · split
      · exact ⟨_, rfl⟩
      · split <;> exact ⟨_, rfl⟩

/-- `setup_repo` never records the `flash_device` entry marker. -/
theorem setup_repo_no_flash_enter (env : Env) (s : St) :
    Effect.enter "flash_device" ∉ (setup_repo env s).trace := by
  unfold setup_repo
  split
  · simp
  · split
    · simp [markStep]
    · split <;> simp [markStep]

/-- `copy_files` never records the `flash_device` entry marker. -/
theorem copy_files_no_flash_enter (env : Env) (s : St) :
    Effect.enter "flash_device" ∉ (copy_files env s).trace := by
  unfold copy_files
  split
  · simp
  · split
    · simp
    · split
      · simp
      · rcases hc : copyAll s.dest env.srcEntries with ⟨d', tr, o⟩
        have hno := copyAll_no_enter "flash_device" env.srcEntries s.dest
        rw [hc] at hno
        cases o with
        | some err =>
            simp only [hc, List.mem_cons]
            push_neg
            exact ⟨by simp, by simpa using hno⟩
        | none =>
            simp only [hc, List.mem_cons, List.mem_append, List.mem_singleton]
            push_neg
            exact ⟨by simp, by simpa using hno, by simp [markStep]⟩

/-- `cleanup` never records the `flash_device` entry marker. -/
theorem cleanup_no_flash_enter (env : Env) (s : St) :
    Effect.enter "flash_device" ∉ (cleanup env s).trace := by
  unfold cleanup
  split <;> split <;> simp

/-- Trace membership through `andThen`: an effect of the composition
is an effect of the first phase, or the first phase returned normally
and it is an effect of the second. -/
theorem mem_andThen_trace {x : Effect} {p : POut} {f : St → POut} :
    x ∈ (andThen p f).trace ↔
      x ∈ p.trace ∨ (p.err? = none ∧ x ∈ (f p.st).trace) := by
  unfold andThen
  cases h : p.err? <;> simp [h]

/-- Claim C2 (amended): `run` takes the skip-flashing branch exactly
when `os.path.exists` reports the destination path present — the mount
status is not consulted.  Precisely: `setup_repo` is always invoked;
when the destination path exists and repo setup returns normally,
`copy_files` is invoked next; and `flash_device` is invoked iff the
destination path does not exist (given repo setup returned normally). -/
theorem run_branches_on_path_existence (env : Env) (s : St)
    (hok : (setup_repo env s).err? = none) :
    Effect.enter "setup_repo" ∈ (run env s).trace ∧
      (env.circuitpyExists = true →
        Effect.enter "copy_files" ∈ (run env s).trace) ∧
      (Effect.enter "flash_device" ∈ (run env s).trace ↔
        env.circuitpyExists = false) := by
  obtain ⟨ts, hts⟩ := setup_repo_trace_head env s
  by_cases hcp : env.circuitpyExists
  · rw [run, if_pos hcp]
    refine ⟨?_, fun _ => ?_, ?_⟩
    · rw [mem_andThen_trace]
      left
      rw [mem_andThen_trace]
      left
      simp [hts]
    · rw [mem_andThen_trace]
      left
      rw [mem_andThen_trace]
      right
      obtain ⟨tc, htc⟩ := copy_files_trace_head env (setup_repo env s).st
      exact ⟨hok, by simp [htc]⟩
    · rw [mem_andThen_trace, mem_andThen_trace]
      simp only [hcp]
      constructor
      · rintro ((h | ⟨-, h⟩) | ⟨-, h⟩)
        · exact absurd h (setup_repo_no_flash_enter env s)
        · exact absurd h (copy_files_no_flash_enter env _)
        · exact absurd h (cleanup_no_flash_enter env _)
      · intro h
        simp at h
  · rw [run, if_neg hcp]
    refine ⟨?_, fun hc => absurd hc (by simpa using hcp), ?_⟩
    · rw [mem_andThen_trace]
      left
      rw [mem_andThen_trace]
      left
      rw [mem_andThen_trace]
      left
      simp [hts]
    · simp only [eq_false_of_ne_true hcp, iff_true]
      rw [mem_andThen_trace]
      left
      rw [mem_andThen_trace]
      left
      rw [mem_andThen_trace]
      right
      obtain ⟨tf, htf⟩ := flash_device_trace_head env (setup_repo env s).st
      exact ⟨hok, by simp [htf]⟩

/-- Witness for the amended C2: in an environment where the
destination path is absent at start, `flash_device` is invoked. -/
theorem run_branches_on_path_existence_wit :
    (setup_repo envW stW).err? = none ∧
      (Effect.enter "flash_device" ∈ (run envW stW).trace ↔
        envW.circuitpyExists = false) :=
  ⟨by decide, (run_branches_on_path_existence envW stW (by decide)).2.2⟩

/-- An environment in which the destination path exists at start but
is not a mount point: the skip branch is nevertheless taken. -/
def envSkip : Env :=
  ⟨true, false, true, true, true, true, fun _ => true, fun _ => true, []⟩

/-- Counterexample to C2 as stated: with the destination path present
but not mounted, `run` still skips `flash_device`, so the skip branch
is not taken "exactly when the destination volume is already
mounted". -/
theorem run_branch_mount_counterexample :
    ¬ ((Effect.enter "flash_device" ∉ (run envSkip stW).trace) ↔
        (envSkip.circuitpyExists = true ∧ envSkip.circuitpyIsmount = true)) := by
  decide

/-- Appending a fresh element keeps a list duplicate-free. -/
theorem nodup_append_step {l : List String} {x : String}
    (h : l.Nodup) (hx : x ∉ l) : (l ++ [x]).Nodup := by
  simp [List.nodup_append, h, hx]

/-- `setup_repo` leaves the ledger unchanged or appends exactly
`repo_setup`, which was not yet present. -/
theorem setup_repo_mem_eq (env : Env) (s : St) :
    (setup_repo env s).st.mem = s.mem ∨
      ("repo_setup" ∉ s.mem ∧
        (setup_repo env s).st.mem = s.mem ++ ["repo_setup"]) := by
  unfold setup_repo
  by_cases h : "repo_setup" ∈ s.mem
  · left; simp [h]
  · simp only [if_neg h]
    split
    · right; exact ⟨h, by simp [markStep]⟩
    · split
      · right; exact ⟨h, by simp [markStep]⟩
      · left; simp

/-- `flash_device` leaves the ledger unchanged or appends exactly
`device_flashed`, which was not yet present. -/
theorem flash_device_mem_eq (env : Env) (s : St) :
    (flash_device env s).st.mem = s.mem ∨
      ("device_flashed" ∉ s.mem ∧
        (flash_device env s).st.mem = s.mem ++ ["device_flashed"]) := by
  unfold flash_device
  by_cases h : "device_flashed" ∈ s.mem
  · left; simp [h]
  · simp only [if_neg h]
    rcases h1 : flash_one env nukeName with ⟨t1, o1⟩
    cases o1 with
    | some e => left; simp
    | none =>
        rcases h2 : flash_one env cpName with ⟨t2, o2⟩
        cases o2 with
        | some e => left; simp
        | none => right; exact ⟨h, by simp [markStep]⟩

/-- `copy_files` leaves the ledger unchanged or appends exactly
`files_copied`, which was not yet present. -/
theorem copy_files_mem_eq (env : Env) (s : St) :
    (copy_files env s).st.mem = s.mem ∨
      ("files_copied" ∉ s.mem ∧
        (copy_files env s).st.mem = s.mem ++ ["files_copied"]) := by
  unfold copy_files
  by_cases h : "files_copied" ∈ s.mem
  · left; simp [h]
  · simp only [if_neg h]
    by_cases hw : env.circuitpyWaitOk
    · simp only [waitDrive, if_pos hw]
      rcases hc : copyAll s.dest env.srcEntries with ⟨d', tr, o⟩
      cases o with
      | some err => left; simp [hc]
      | none => right; exact ⟨h, by simp [hc, markStep]⟩
    · simp only [waitDrive, if_neg hw]
      left; simp

/-- `cleanup` does not change the state at all. -/
theorem cleanup_st_eq (env : Env) (s : St) : (cleanup env s).st = s := rfl

/-- The C10 invariant relating a pre-state to an operation's outcome:
the old ledger is a prefix of the new one (entries are only appended,
never removed), and the new ledger is duplicate-free. -/
def LedgerExtends (s : St) (r : POut) : Prop :=
  s.mem <+: r.st.mem ∧ r.st.mem.Nodup

/-- `LedgerExtends` is preserved through `andThen` sequencing. -/
theorem ledgerExtends_andThen {s : St} {p : POut} {f : St → POut}
    (hp : LedgerExtends s p) (hf : LedgerExtends p.st (f p.st)) :
    LedgerExtends s (andThen p f) := by
  unfold andThen
  cases h : p.err? with
  | some e => simpa [h] using hp
  | none => exact ⟨hp.1.trans hf.1, hf.2⟩

/-- `LedgerExtends` from the unchanged-or-fresh-append case split. -/
theorem ledgerExtends_of_cases {s : St} {r : POut} {x : String}
    (h : s.mem.Nodup)
    (hc : r.st.mem = s.mem ∨ (x ∉ s.mem ∧ r.st.mem = s.mem ++ [x])) :
    LedgerExtends s r := by
  rcases hc with hc | ⟨hx, hc⟩
  · exact ⟨hc ▸ List.prefix_refl _, hc ▸ h⟩
  · exact ⟨hc ▸ List.prefix_append _ _, hc ▸ nodup_append_step h hx⟩

/-- `setup_repo` preserves the ledger-growth invariant. -/
theorem setup_repo_extends (env : Env) (s : St) (h : s.mem.Nodup) :
    LedgerExtends s (setup_repo env s) :=
  ledgerExtends_of_cases h (setup_repo_mem_eq env s)

/-- `flash_device` preserves the ledger-growth invariant. -/
theorem flash_device_extends (env : Env) (s : St) (h : s.mem.Nodup) :
    LedgerExtends s (flash_device env s) :=
  ledgerExtends_of_cases h (flash_device_mem_eq env s)

/-- `copy_files` preserves the ledger-growth invariant. -/
theorem copy_files_extends (env : Env) (s : St) (h : s.mem.Nodup) :
    LedgerExtends s (copy_files env s) :=
  ledgerExtends_of_cases h (copy_files_mem_eq env s)

/-- `cleanup` preserves the ledger-growth invariant. -/
theorem cleanup_extends (env : Env) (s : St) (h : s.mem.Nodup) :
    LedgerExtends s (cleanup env s) :=
  ledgerExtends_of_cases (x := "files_copied") h (Or.inl (by rfl))

/-- Claim C10: starting from any duplicate-free ledger, every
operation (`setup_repo`, `flash_device`, `copy_files`, `cleanup`,
`run`) only grows the completed-steps list: the old list is a prefix
of the new one (no entry is ever removed), and the new list is still
duplicate-free (each step identifier occurs at most once, and anything
appended was not already present). -/
theorem ledger_only_grows (env : Env) (s : St) (h : s.mem.Nodup) :
    LedgerExtends s (setup_repo env s) ∧
      LedgerExtends s (flash_device env s) ∧
      LedgerExtends s (copy_files env s) ∧
      LedgerExtends s (cleanup env s) ∧
      LedgerExtends s (run env s) := by
  refine ⟨setup_repo_extends env s h, flash_device_extends env s h,
    copy_files_extends env s h, cleanup_extends env s h, ?_⟩
  unfold run
  by_cases hcp : env.circuitpyExists
  · rw [if_pos hcp]
    have h1 : LedgerExtends s (andThen (setup_repo env s) (copy_files env)) :=
      ledgerExtends_andThen (setup_repo_extends env s h)
        (copy_files_extends env _ (setup_repo_extends env s h).2)
    exact ledgerExtends_andThen h1 (cleanup_extends env _ h1.2)
  · rw [if_neg hcp]
    have h1 : LedgerExtends s (andThen (setup_repo env s) (flash_device env)) :=
      ledgerExtends_andThen (setup_repo_extends env s h)
        (flash_device_extends env _ (setup_repo_extends env s h).2)
    have h2 : LedgerExtends s
        (andThen (andThen (setup_repo env s) (flash_device env)) (copy_files env)) :=
      ledgerExtends_andThen h1 (copy_files_extends env _ h1.2)
    exact ledgerExtends_andThen h2 (cleanup_extends env _ h2.2)

/-- Witness for C10: a full run from the empty ledger. -/
theorem ledger_only_grows_wit :
    stW.mem.Nodup ∧ LedgerExtends stW (run envW stW) :=
  ⟨by decide, (ledger_only_grows envW stW (by decide)).2.2.2.2⟩

/-- A successful `flash_one` has copied its artifact onto the
bootloader volume. -/
theorem flash_one_ok_copies (env : Env) (n : String) (t : List Effect)
    (h : flash_one env n = (t, none)) :
    Effect.copyToDrive n bootloaderPath ∈ t := by
  by_cases hb : env.bootWaitOk
  · by_cases hl : env.localExists n
    · simp [flash_one, waitDrive, download_file, copy_to_drive, hb, hl] at h
      rw [← h]
      simp
    · by_cases hd : env.downloadOk n
      · simp [flash_one, waitDrive, download_file, copy_to_drive, hb, hl, hd] at h
        rw [← h]
        simp
      · simp [flash_one, waitDrive, download_file, copy_to_drive, hb, hl, hd] at h
  · simp [flash_one, waitDrive, hb] at h

/-- The C4 contract for `setup_repo` and `flash_device`: on normal
return the phase has appended exactly its step identifier and
persisted the new ledger, with the save as the very last effect; on a
raise the whole state — in particular the persisted ledger file — is
unchanged. -/
def MarksAfterWork (s : St) (r : POut) (step : String) : Prop :=
  (r.err? = none →
      r.st.mem = s.mem ++ [step] ∧ r.st.file = some (s.mem ++ [step]) ∧
        ∃ pre, r.trace = pre ++ [Effect.saveLedger (s.mem ++ [step])]) ∧
    (r.err? ≠ none → r.st = s)

/-- The C4 contract for `copy_files`: as `MarksAfterWork`, except that
on a raise only the ledger — the in-memory list and the persisted
file — is asserted unchanged: a `NotADirectoryError` mid-loop leaves
entries already copied on the destination volume. -/
def MarksAfterWorkLedger (s : St) (r : POut) (step : String) : Prop :=
  (r.err? = none →
      r.st.mem = s.mem ++ [step] ∧ r.st.file = some (s.mem ++ [step]) ∧
        ∃ pre, r.trace = pre ++ [Effect.saveLedger (s.mem ++ [step])]) ∧
    (r.err? ≠ none → r.st.mem = s.mem ∧ r.st.file = s.file)

/-- Claim C4: each phase marks its step identifier in the ledger only
after all of its work succeeds — `device_flashed` in particular is
appended and saved only after both configured artifacts were copied
onto the bootloader volume (the copies precede the save in the trace)
— and if an error is raised mid-phase the persisted ledger is
unchanged from before the phase started (`setup_repo` and
`flash_device` raise with the whole state unchanged; `copy_files`
raising mid-loop leaves partial copies on the volume but the ledger,
memory and file, untouched). -/
theorem phases_mark_after_work (env : Env) (s : St) :
    ("repo_setup" ∉ s.mem → MarksAfterWork s (setup_repo env s) "repo_setup") ∧
      ("device_flashed" ∉ s.mem →
        MarksAfterWork s (flash_device env s) "device_flashed" ∧
          ((flash_device env s).err? = none →
            ∃ pre, (flash_device env s).trace =
                pre ++ [Effect.saveLedger (s.mem ++ ["device_flashed"])] ∧
              Effect.copyToDrive nukeName bootloaderPath ∈ pre ∧
              Effect.copyToDrive cpName bootloaderPath ∈ pre)) ∧
      ("files_copied" ∉ s.mem →
        MarksAfterWorkLedger s (copy_files env s) "files_copied") := by
  refine ⟨?_, ?_, ?_⟩
  · intro h
    unfold setup_repo
    simp only [if_neg h]
    split
    · exact ⟨fun _ => ⟨by simp [markStep], by simp [markStep, save_state],
        ⟨[.enter "setup_repo"], by simp [markStep]⟩⟩, fun hc => absurd rfl hc⟩
    · split
      · exact ⟨fun _ => ⟨by simp [markStep], by simp [markStep, save_state],
          ⟨[.enter "setup_repo", .clone], by simp [markStep]⟩⟩,
          fun hc => absurd rfl hc⟩
      · exact ⟨fun hc => by simp at hc, fun _ => rfl⟩
  · intro h
    unfold flash_device
    simp only [if_neg h]
    rcases h1 : flash_one env nukeName with ⟨t1, o1⟩
    cases o1 with
    | some e =>
        exact ⟨⟨fun hc => by simp at hc, fun _ => rfl⟩, fun hc => by simp at hc⟩
    | none =>
        rcases h2 : flash_one env cpName with ⟨t2, o2⟩
        cases o2 with
        | some e =>
            exact ⟨⟨fun hc => by simp at hc, fun _ => rfl⟩, fun hc => by simp at hc⟩
        | none =>
            refine ⟨⟨fun _ => ⟨by simp [markStep], by simp [markStep, save_state],
              ⟨.enter "flash_device" :: (t1 ++ t2), by simp [markStep]⟩⟩,
              fun hc => absurd rfl hc⟩, fun _ => ?_⟩
            refine ⟨.enter "flash_device" :: (t1 ++ t2), by simp [markStep], ?_, ?_⟩
            · simp [flash_one_ok_copies env nukeName t1 h1]
            · simp [flash_one_ok_copies env cpName t2 h2]
  · intro h
    unfold copy_files
    simp only [if_neg h]
    by_cases hw : env.circuitpyWaitOk
    · simp only [waitDrive, if_pos hw]
      rcases hc : copyAll s.dest env.srcEntries with ⟨d', tr, o⟩
      cases o with
      | some err =>
          exact ⟨fun hcon => by simp at hcon, fun _ => ⟨rfl, rfl⟩⟩
      | none =>
          exact ⟨fun _ => ⟨by simp [markStep], by simp [markStep, save_state],
            ⟨.enter "copy_files" :: tr, by simp [markStep]⟩⟩,
            fun hc => absurd rfl hc⟩
    · simp only [waitDrive, if_neg hw]
      exact ⟨fun hc => by simp at hc, fun _ => ⟨rfl, rfl⟩⟩

/-- Witness for C4: a successful `flash_device` from the empty ledger. -/
theorem phases_mark_after_work_wit :
    "device_flashed" ∉ stW.mem ∧
      MarksAfterWork stW (flash_device envW stW) "device_flashed" ∧
      (flash_device envW stW).err? = none ∧
      (∃ pre, (flash_device envW stW).trace =
          pre ++ [Effect.saveLedger (stW.mem ++ ["device_flashed"])] ∧
        Effect.copyToDrive nukeName bootloaderPath ∈ pre ∧
        Effect.copyToDrive cpName bootloaderPath ∈ pre) :=
  ⟨by decide, ((phases_mark_after_work envW stW).2.1 (by decide)).1, by decide,
    ((phases_mark_after_work envW stW).2.1 (by decide)).2 (by decide)⟩

/-- `setD` writes the given entry at the given name. -/
theorem lookupD_setD_self (d : Dest) (n : String) (v : Node) :
    lookupD (setD d n v) n = some v := by
  induction d with
  | nil => simp [setD, lookupD, List.find?]
  | cons p rest ih =>
      rcases p with ⟨m, w⟩
      by_cases h : m = n
      · simp [setD, h, lookupD, List.find?]
      · simpa [setD, h, lookupD, List.find?] using ih

/-- `setD` leaves every other name unchanged. -/
theorem lookupD_setD_ne (d : Dest) (m n : String) (v : Node) (h : m ≠ n) :
    lookupD (setD d m v) n = lookupD d n := by
  induction d with
  | nil => simp [setD, lookupD, List.find?, h]
  | cons p rest ih =>
      rcases p with ⟨k, w⟩
      by_cases hk : k = m
      · subst hk
        simp [setD, lookupD, List.find?, h]
      · by_cases hn : k = n
        · subst hn
          simp [setD, hk, lookupD, List.find?]
        · simpa [setD, hk, lookupD, List.find?, hn] using ih

/-- Copying one source entry does not touch destination entries of
other names (also when the copy raises: the destination is returned
unchanged then). -/
theorem copyEntry_other (d : Dest) (e : SrcEntry) (n : String)
    (h : e.name ≠ n) : lookupD (copyEntry d e).1 n = lookupD d n := by
  rcases e with ⟨name, node⟩
  cases node with
  | file c =>
      simp only [copyEntry]
      split <;> exact lookupD_setD_ne d name n _ h
  | dir es =>
      simp only [copyEntry]
      split
      · rfl
      · exact lookupD_setD_ne d name n _ h
      · exact lookupD_setD_ne d name n _ h

/-- What `copy_files` leaves at a copied entry's name when the copy
does not raise, as a function of the old destination entry of that
name: a directory is copied with full replace (over a stale directory
or nothing); a file overwrites, except that `shutil.copy2` onto an
existing directory of the same name copies the file *into* that
directory. -/
def copyResultAt (name : String) (old : Option Node) : Node → Node
  | .dir es => .dir es
  | .file c =>
      match old with
      | some (.dir es) => .dir (setDir es name c)
      | _ => .file c

/-- `rmtreeRaises` only looks at the destination entry of the source
entry's name. -/
theorem rmtreeRaises_congr (d₁ d₂ : Dest) (e : SrcEntry)
    (h : lookupD d₁ e.name = lookupD d₂ e.name) :
    rmtreeRaises d₁ e = rmtreeRaises d₂ e := by
  unfold rmtreeRaises
  rw [h]

/-- When `rmtree` does not raise, copying one source entry succeeds
and writes `copyResultAt` at its own name. -/
theorem copyEntry_self (d : Dest) (e : SrcEntry)
    (h : rmtreeRaises d e = false) :
    (copyEntry d e).2.2 = none ∧
      lookupD (copyEntry d e).1 e.name =
        some (copyResultAt e.name (lookupD d e.name) e.node) := by
  rcases e with ⟨name, node⟩
  cases node with
  | file c =>
      simp only [copyEntry, copyResultAt]
      rcases hl : lookupD d name with _ | v
      · simp [hl, lookupD_setD_self]
      · rcases v with c' | es <;> simp [hl, lookupD_setD_self]
  | dir es =>
      simp only [copyEntry, copyResultAt]
      rcases hl : lookupD d name with _ | v
      · simp [hl, lookupD_setD_self]
      · rcases v with c' | es'
        · exfalso
          simp [rmtreeRaises, hl] at h
        · simp [hl, lookupD_setD_self]

/-- When `rmtree` raises, `copyEntry` aborts: the destination is
unchanged and the error is `NotADirectoryError`. -/
theorem copyEntry_raise (d : Dest) (e : SrcEntry)
    (h : rmtreeRaises d e = true) :
    copyEntry d e = (d, [Effect.rmtreeE e.name], some PErr.notADirectory) := by
  rcases e with ⟨name, node⟩
  cases node with
  | file c =>
      exfalso
      rcases hl : lookupD d name with _ | v
      · simp [rmtreeRaises, hl] at h
      · rcases v with c' | es' <;> simp [rmtreeRaises, hl] at h
  | dir es =>
      rcases hl : lookupD d name with _ | v
      · exfalso; simp [rmtreeRaises, hl] at h
      · rcases v with c' | es'
        · simp [copyEntry, hl]
        · exfalso; simp [rmtreeRaises, hl] at h

/-- The copy loop leaves a destination name unchanged when no
non-skipped source entry bears that name — stale entries survive,
also when the loop aborts partway. -/
theorem copyAll_frame (es : List SrcEntry) :
    ∀ (d : Dest) (n : String),
      (∀ e ∈ es, e.name ≠ ".DS_Store" → e.name ≠ n) →
      lookupD (copyAll d es).1 n = lookupD d n := by
  induction es with
  | nil => intro d n _; simp [copyAll]
  | cons a rest ih =>
      intro d n h
      by_cases hds : a.name = ".DS_Store"
      · simp only [copyAll, if_pos hds]
        exact ih d n (fun e he => h e (List.mem_cons_of_mem a he))
      · simp only [copyAll, if_neg hds]
        have hother : lookupD (copyEntry d a).1 n = lookupD d n :=
          copyEntry_other d a n (h a (List.mem_cons_self a rest) hds)
        rcases hc : copyEntry d a with ⟨d', tr, o⟩
        rw [hc] at hother
        cases o with
        | some err => simpa [hc] using hother
        | none =>
            simp only [hc]
            rw [ih d' n (fun e he => h e (List.mem_cons_of_mem a he))]
            exact hother

/-- When no non-skipped source entry collides as a directory with a
same-named stale destination file, the copy loop completes without
raising and writes `copyResultAt` at each non-skipped source entry's
name, computed from the original destination entry of that name
(assuming source names are distinct, as directory entries are). -/
theorem copyAll_at (es : List SrcEntry) :
    ∀ d : Dest, (es.map SrcEntry.name).Nodup →
      (∀ e' ∈ es, e'.name ≠ ".DS_Store" → rmtreeRaises d e' = false) →
      (copyAll d es).2.2 = none ∧
        ∀ e ∈ es, e.name ≠ ".DS_Store" →
          lookupD (copyAll d es).1 e.name =
            some (copyResultAt e.name (lookupD d e.name) e.node) := by
  induction es with
  | nil =>
      intro d _ _
      exact ⟨by simp [copyAll], fun e he => absurd he (List.not_mem_nil e)⟩
  | cons a rest ih =>
      intro d hnd hall
      have hnd' : (rest.map SrcEntry.name).Nodup := (List.nodup_cons.mp hnd).2
      have hahd : a.name ∉ rest.map SrcEntry.name := (List.nodup_cons.mp hnd).1
      by_cases hds : a.name = ".DS_Store"
      · simp only [copyAll, if_pos hds]
        have hrest := ih d hnd' (fun e' he' => hall e' (List.mem_cons_of_mem a he'))
        refine ⟨hrest.1, ?_⟩
        intro e he hed
        rcases List.mem_cons.mp he with rfl | he'
        · exact absurd hds hed
        · exact hrest.2 e he' hed
      · simp only [copyAll, if_neg hds]
        have hra : rmtreeRaises d a = false :=
          hall a (List.mem_cons_self a rest) hds
        have hself := copyEntry_self d a hra
        rcases hc : copyEntry d a with ⟨d', tr, o⟩
        rw [hc] at hself
        have ho : o = none := by simpa using hself.1
        subst ho
        simp only [hc]
        have htrans : ∀ e' ∈ rest, e'.name ≠ ".DS_Store" →
            rmtreeRaises d' e' = false := by
          intro e' he' hde
          have hne : a.name ≠ e'.name := fun hcq =>
            hahd (hcq ▸ List.mem_map_of_mem SrcEntry.name he')
          have hl : lookupD d' e'.name = lookupD d e'.name := by
            have hx := copyEntry_other d a e'.name hne
            rw [hc] at hx
            exact hx
          rw [rmtreeRaises_congr d' d e' hl]
          exact hall e' (List.mem_cons_of_mem a he') hde
        have hrest := ih d' hnd' htrans
        refine ⟨hrest.1, ?_⟩
        intro e he hed
        rcases List.mem_cons.mp he with rfl | he'
        · rw [copyAll_frame rest d' e.name
            (fun e' he' _ hcq => hahd (hcq ▸ List.mem_map_of_mem SrcEntry.name he'))]
          simpa using hself.2
        · have hne : a.name ≠ e.name := fun hcq =>
            hahd (hcq ▸ List.mem_map_of_mem SrcEntry.name he')
          have hl : lookupD d' e.name = lookupD d e.name := by
            have hx := copyEntry_other d a e.name hne
            rw [hc] at hx
            exact hx
          rw [hrest.2 e he' hed, hl]

/-- If some non-skipped source directory entry collides with a
same-named stale destination file, the copy loop aborts with
`NotADirectoryError` (the first such entry reached raises). -/
theorem copyAll_err_collision (es : List SrcEntry) :
    ∀ d : Dest, (es.map SrcEntry.name).Nodup →
      (∃ e ∈ es, e.name ≠ ".DS_Store" ∧ rmtreeRaises d e = true) →
      (copyAll d es).2.2 = some PErr.notADirectory := by
  induction es with
  | nil =>
      intro d _ h
      exact absurd h (by simp)
  | cons a rest ih =>
      rintro d hnd ⟨e, he, hed, hre⟩
      have hnd' : (rest.map SrcEntry.name).Nodup := (List.nodup_cons.mp hnd).2
      have hahd : a.name ∉ rest.map SrcEntry.name := (List.nodup_cons.mp hnd).1
      by_cases hds : a.name = ".DS_Store"
      · simp only [copyAll, if_pos hds]
        rcases List.mem_cons.mp he with rfl | he'
        · exact absurd hds hed
        · exact ih d hnd' ⟨e, he', hed, hre⟩
      · simp only [copyAll, if_neg hds]
        by_cases hra : rmtreeRaises d a = true
        · rw [copyEntry_raise d a hra]
        · have hra' : rmtreeRaises d a = false := by
            simpa using hra
          have hself := copyEntry_self d a hra'
          rcases hc : copyEntry d a with ⟨d', tr, o⟩
          rw [hc] at hself
          have ho : o = none := by simpa using hself.1
          subst ho
          simp only [hc]
          rcases List.mem_cons.mp he with rfl | he'
          · exact absurd hre (by simp [hra'])
          · have hne : a.name ≠ e.name := fun hcq =>
              hahd (hcq ▸ List.mem_map_of_mem SrcEntry.name he')
            have hl : lookupD d' e.name = lookupD d e.name := by
              have hx := copyEntry_other d a e.name hne
              rw [hc] at hx
              exact hx
            exact ih d' hnd'
              ⟨e, he', hed, by rw [rmtreeRaises_congr d' d e hl]; exact hre⟩

/-- Claim C3 (amended): after `copy_files` on a pre-existing
destination, stale destination entries whose names match no source
entry survive (the loop iterates over source entries only and never
removes anything else); when no non-skipped source directory entry
collides with a same-named stale destination *file*, the phase
completes and every non-skipped source entry has been copied at its
name — directories with full-replace semantics, files by overwrite
(`copy2` onto a same-named stale directory copies into it); when such
a collision exists, `shutil.rmtree` raises `NotADirectoryError`, the
phase aborts and `files_copied` is not marked. -/
theorem copy_files_replaces_entries (env : Env) (s : St)
    (hmem : "files_copied" ∉ s.mem) (hw : env.circuitpyWaitOk = true)
    (hnd : (env.srcEntries.map SrcEntry.name).Nodup) :
    (∀ n, (∀ e ∈ env.srcEntries, e.name ≠ ".DS_Store" → e.name ≠ n) →
        lookupD (copy_files env s).st.dest n = lookupD s.dest n) ∧
      ((∀ e ∈ env.srcEntries, e.name ≠ ".DS_Store" →
          rmtreeRaises s.dest e = false) →
        (copy_files env s).err? = none ∧
          ∀ e ∈ env.srcEntries, e.name ≠ ".DS_Store" →
            lookupD (copy_files env s).st.dest e.name =
              some (copyResultAt e.name (lookupD s.dest e.name) e.node)) ∧
      ((∃ e ∈ env.srcEntries, e.name ≠ ".DS_Store" ∧
          rmtreeRaises s.dest e = true) →
        (copy_files env s).err? = some PErr.notADirectory ∧
          (copy_files env s).st.mem = s.mem ∧
          (copy_files env s).st.file = s.file) := by
  have hred : copy_files env s =
      (match copyAll s.dest env.srcEntries with
        | (d', tr, some err) =>
            ⟨some err, { s with dest := d' }, .enter "copy_files" :: tr⟩
        | (d', tr, none) =>
            let p := markStep { s with dest := d' } "files_copied"
            ⟨none, p.1, .enter "copy_files" :: (tr ++ [p.2])⟩) := by
    simp [copy_files, hmem, waitDrive, hw]
  rcases hc : copyAll s.dest env.srcEntries with ⟨d', tr, o⟩
  rw [hc] at hred
  refine ⟨?_, ?_, ?_⟩
  · intro n hn
    have hf := copyAll_frame env.srcEntries s.dest n hn
    rw [hc] at hf
    cases o with
    | some err => rw [hred]; exact hf
    | none => rw [hred]; simpa [markStep] using hf
  · intro hall
    have hat := copyAll_at env.srcEntries s.dest hnd hall
    rw [hc] at hat
    have ho : o = none := by simpa using hat.1
    subst ho
    rw [hred]
    refine ⟨rfl, ?_⟩
    intro e he hed
    have := hat.2 e he hed
    simpa [markStep] using this
  · intro hex
    have herr := copyAll_err_collision env.srcEntries s.dest hnd hex
    rw [hc] at herr
    have ho : o = some PErr.notADirectory := by simpa using herr
    subst ho
    rw [hred]
    exact ⟨rfl, rfl, rfl⟩

/-- The C3 property exactly as the specification states it: after
`copy_files`, the destination contains exactly the non-skipped source
entries — every such entry is present, and nothing else is. -/
def SpecDestExactlySource (env : Env) (s : St) : Prop :=
  (∀ e ∈ env.srcEntries.filter (fun e => e.name != ".DS_Store"),
      lookupD (copy_files env s).st.dest e.name = some e.node) ∧
    ∀ n, lookupD (copy_files env s).st.dest n ≠ none →
      n ∈ (env.srcEntries.filter (fun e => e.name != ".DS_Store")).map SrcEntry.name

/-- An environment whose source checkout holds a single directory. -/
def envStale : Env :=
  ⟨false, false, true, true, true, true, fun _ => true, fun _ => true,
    [⟨"payload", .dir [("code.py", 1)]⟩]⟩

/-- A destination volume holding a stale file not present in the
source. -/
def stStale : St := ⟨[], none, [("stale.txt", .file 7)]⟩

/-- Counterexample to C3 as stated: the stale destination entry
`stale.txt`, absent from the source, still exists after `copy_files`,
so the destination does not contain exactly the source's entries. -/
theorem copy_files_stale_survives : ¬ SpecDestExactlySource envStale stStale := by
  intro h
  exact absurd (h.2 "stale.txt" (by decide)) (by decide)

/-- An environment with a file entry and a directory entry in the
source checkout. -/
def envRepl : Env :=
  ⟨false, false, true, true, true, true, fun _ => true, fun _ => true,
    [⟨"a", .file 5⟩, ⟨"d", .dir [("x", 1)]⟩]⟩

/-- A destination holding a stale file and a stale *directory* named
like the source directory `d` (directory over directory: `rmtree`
succeeds, full replace). -/
def stRepl : St := ⟨[], none, [("stale", .file 7), ("d", .dir [("old", 9)])]⟩

/-- A destination holding a stale *file* named like the source
directory `d`: `shutil.rmtree` on it raises `NotADirectoryError`. -/
def stCollide : St := ⟨[], none, [("d", .file 3)]⟩

/-- Witness for the amended C3: on `stRepl` (no dir-over-file
collision) the phase completes, the stale entry survives unchanged
and the colliding stale directory is fully replaced; on `stCollide`
(source directory over stale file) the phase aborts with
`NotADirectoryError` and the ledger file is untouched. -/
theorem copy_files_replaces_entries_wit :
    ("files_copied" ∉ stRepl.mem ∧ envRepl.circuitpyWaitOk = true ∧
        (envRepl.srcEntries.map SrcEntry.name).Nodup ∧
        (∀ e ∈ envRepl.srcEntries, e.name ≠ ".DS_Store" →
          rmtreeRaises stRepl.dest e = false)) ∧
      lookupD (copy_files envRepl stRepl).st.dest "stale" =
        lookupD stRepl.dest "stale" ∧
      (copy_files envRepl stRepl).err? = none ∧
      lookupD (copy_files envRepl stRepl).st.dest "d" =
        some (copyResultAt "d" (lookupD stRepl.dest "d") (Node.dir [("x", 1)])) ∧
      (∃ e ∈ envRepl.srcEntries, e.name ≠ ".DS_Store" ∧
        rmtreeRaises stCollide.dest e = true) ∧
      (copy_files envRepl stCollide).err? = some PErr.notADirectory ∧
      (copy_files envRepl stCollide).st.file = stCollide.file :=
  ⟨⟨by decide, by decide, by decide, by decide⟩,
    (copy_files_replaces_entries envRepl stRepl (by decide) (by decide)
      (by decide)).1 "stale" (by decide),
    ((copy_files_replaces_entries envRepl stRepl (by decide) (by decide)
      (by decide)).2.1 (by decide)).1,
    ((copy_files_replaces_entries envRepl stRepl (by decide) (by decide)
      (by decide)).2.1 (by decide)).2 ⟨"d", .dir [("x", 1)]⟩ (by decide) (by decide),
    by decide,
    ((copy_files_replaces_entries envRepl stCollide (by decide) (by decide)
      (by decide)).2.2 (by decide)).1,
    ((copy_files_replaces_entries envRepl stCollide (by decide) (by decide)
      (by decide)).2.2 (by decide)).2.2⟩

/-- Witness for C1 at a ledger holding all three steps. -/
theorem completed_phase_skips_wit :
    ("repo_setup" ∈ stDone.mem ∧
        setup_repo envW stDone = ⟨none, stDone, [.enter "setup_repo"]⟩) ∧
      ("device_flashed" ∈ stDone.mem ∧
        flash_device envW stDone = ⟨none, stDone, [.enter "flash_device"]⟩) ∧
      ("files_copied" ∈ stDone.mem ∧
        copy_files envW stDone = ⟨none, stDone, [.enter "copy_files"]⟩) :=
  ⟨⟨by decide, (completed_phase_skips envW stDone).1 (by decide)⟩,
    ⟨by decide, (completed_phase_skips envW stDone).2.1 (by decide)⟩,
    ⟨by decide, (completed_phase_skips envW stDone).2.2 (by decide)⟩⟩

end PicoDucky
